import Mathlib

/-!
Verification of the go-objectid OID library (package `objectid`).

The development shallowly embeds the package's core value types and codec:

* `NumberForm` (Go: `type NumberForm big.Int`) is modelled as `Int` — an
  arbitrary-precision integer, exactly the value space of `math/big.Int`.
* `DotNotation` (Go: `type DotNotation []NumberForm`) is modelled as
  `List Int`.
* Go byte slices are modelled as `List Nat`; every byte produced by the
  code is `< 256`, and the bit operations `x & 0x7F` and `x & 0x80 == 0`
  are rendered as `x % 128` and `x / 128 % 2 == 0`, which agree with the
  Go expressions on all natural numbers.
* Go functions that can panic on out-of-range slice indexing are given an
  explicit `crash` outcome; all other fallible operations return `Except`.

Every definition is translated from the Go sources (dot.go / nf.go of the
current version of the package).
-/

namespace objectid

/-- Go `big.Int.Uint64()` as used on the (possibly negative, unbounded)
values of this package: the low 64 bits of the absolute value. -/
def uint64 (z : Int) : Nat := z.natAbs % 2 ^ 64

/-! ### NumberForm (nf.go)

`NumberForm` is `big.Int`; the polymorphic `any` arguments of the
comparison methods and of `NewNumberForm` are modelled as closed sums of
the accepted Go types (`*big.Int`, `NumberForm`, `string`, `uint64`,
`uint`, `int`), plus one case for every unsupported dynamic type. -/

/-- A right-hand side accepted by the `NumberForm` comparison methods. -/
inductive CmpRhs where
  | big (z : Int)
  | nf (v : Int)
  | str (s : List Char)
  | u64 (n : Nat)
  | unat (n : Nat)
  | int (n : Int)
  | other
deriving DecidableEq

/-- Decimal digit test, `'0' <= c && c <= '9'`. -/
def isDigit (c : Char) : Bool := '0' ≤ c && c ≤ '9'

/-- Value of a nonempty all-digit string, `none` otherwise. -/
def digitsToNat (ds : List Char) : Option Nat :=
  if ds.isEmpty then none
  else if ds.all isDigit then
    some (ds.foldl (fun a c => a * 10 + (c.toNat - 48)) 0)
  else none

/-- Go `big.NewInt(0).SetString(s, 10)`: an optional sign followed by one
or more decimal digits, consuming the entire string. -/
def setString10 : List Char → Option Int
  | '+' :: ds => (digitsToNat ds).map fun n => (n : Int)
  | '-' :: ds => (digitsToNat ds).map fun n => -(n : Int)
  | ds => (digitsToNat ds).map fun n => (n : Int)

/-- `NumberForm.Equal` (nf.go). `Cmp == 0` is value equality. -/
def Equal (r : Int) : CmpRhs → Bool
  | .big z => decide (r = z)
  | .nf v => decide (r = v)
  | .str s =>
    match setString10 s with
    | none => false
    | some z => decide (r = z)
  | .u64 n => decide (uint64 r = n)
  | .unat n => decide (uint64 r = n)
  | .int n => if 0 ≤ n then decide (uint64 r = n.toNat) else false
  | .other => false

/-- `NumberForm.Gt` (nf.go). `Cmp == 1` means the receiver is larger. -/
def Gt (r : Int) : CmpRhs → Bool
  | .big z => decide (z < r)
  | .nf v => decide (v < r)
  | .str s =>
    match setString10 s with
    | none => false
    | some z => decide (z < r)
  | .u64 n => decide (n < uint64 r)
  | .unat n => decide (n < uint64 r)
  | .int n => if 0 ≤ n then decide (n.toNat < uint64 r) else false
  | .other => false

/-- `NumberForm.Lt` (nf.go). `Cmp == -1` means the receiver is smaller. -/
def Lt (r : Int) : CmpRhs → Bool
  | .big z => decide (r < z)
  | .nf v => decide (r < v)
  | .str s =>
    match setString10 s with
    | none => false
    | some z => decide (r < z)
  | .u64 n => decide (uint64 r < n)
  | .unat n => decide (uint64 r < n)
  | .int n => if 0 ≤ n then decide (uint64 r < n.toNat) else false
  | .other => false

/-- `NumberForm.Ge` (nf.go): `Gt || Equal`. -/
def Ge (r : Int) (n : CmpRhs) : Bool := Gt r n || Equal r n

/-- `NumberForm.Le` (nf.go): `Lt || Equal`. -/
def Le (r : Int) (n : CmpRhs) : Bool := Lt r n || Equal r n

/-- An input accepted by `NewNumberForm` (nf.go). -/
inductive NFInput where
  | big (z : Int)
  | str (s : List Char)
  | int (n : Int)
  | u64 (n : Nat)
  | unat (n : Nat)
  | other
deriving DecidableEq

/-- `newStringNF` (nf.go): rejects the empty string and a leading minus
sign, then parses with `SetString(tv, 10)`. -/
def newStringNF (s : List Char) : Except String Int :=
  if s.length = 0 then .error "Zero length NumberForm"
  else if s.get! 0 = '-' then .error "A NumberForm cannot be negative"
  else
    match setString10 s with
    | none => .error "Failed to read string into NumberForm"
    | some v => .ok v

/-- `NewNumberForm` (nf.go). Note that the `*big.Int` case stores the
value without any sign check. -/
def NewNumberForm : NFInput → Except String Int
  | .big z => .ok z
  | .str s => newStringNF s
  | .int n =>
    if n < 0 then .error "A NumberForm cannot be negative" else .ok n
  | .u64 n => .ok (n : Int)
  | .unat n => .ok (n : Int)
  | .other => .error "Unsupported type"

/-! ### DotNotation structural queries (dot.go) -/

/-- Outcome of `DotNotation.Index`: a value with its success flag, or a
runtime panic from an out-of-range slice access. -/
inductive IndexOutcome where
  | res (a : Int) (ok : Bool)
  | crash
deriving DecidableEq

/-- `DotNotation.Index` (dot.go). The Go code clamps negative indices to
the first element and indices `> len(d)` to the last element, but the
final branch evaluates `d[idx]` for any `0 ≤ idx ≤ len(d)`; at
`idx = len(d)` this slice access is out of range, which we record as
`crash`. -/
def Index (d : List Int) (idx : Int) : IndexOutcome :=
  let L : Int := d.length
  if 0 < d.length then
    if idx < 0 then
      if 0 ≤ L + idx then .res (d.get! (L + idx).toNat) true
      else .res (d.get! 0) true
    else if L < idx then .res (d.get! (d.length - 1)) true
    else if idx < L then .res (d.get! idx.toNat) true
    else .crash
  else .res 0 false

/-- `DotNotation.Root` (dot.go): `Index 0`, which never crashes. -/
def Root (d : List Int) : Int :=
  match Index d 0 with
  | .res a _ => a
  | .crash => 0

/-- `DotNotation.Valid` (dot.go, current version): receiver nonempty,
`Root().Lt(3)` and length at least 2. -/
def Valid (d : List Int) : Bool :=
  if d.length ≠ 0 then Lt (Root d) (.int 3) && decide (2 ≤ d.length)
  else false

/-! ### Dotted-decimal parsing (dot.go helpers) -/

/-- Go `strings.Split(s, ".")`. -/
def splitDot : List Char → List (List Char)
  | [] => [[]]
  | c :: rest =>
    if c = '.' then [] :: splitDot rest
    else
      match splitDot rest with
      | g :: gs => (c :: g) :: gs
      | [] => [[c]]

/-- Go `strconv.Atoi`: decimal with optional sign, restricted to the
64-bit `int` range. -/
def atoi (s : List Char) : Option Int :=
  match setString10 s with
  | none => none
  | some v => if v < -(2 ^ 63) || 2 ^ 63 - 1 < v then none else some v

/-- `isValidOIDPrefix` (dot.go): at least two dot-separated components,
the first parses via `Atoi` to 0..2, and the second parses to 0..39
unless the root is 2. -/
def isValidOIDStart (s : List Char) : Bool :=
  let slices := splitDot s
  if slices.length < 2 then false
  else
    match atoi (slices.get! 0) with
    | none => false
    | some root =>
      if !(0 ≤ root && root ≤ 2) then false
      else
        match atoi (slices.get! 1) with
        | none => false
        | some sub =>
          if !(0 ≤ sub && sub ≤ 39) && root ≠ 2 then false else true

/-- The character scan of `isNumericOID` (dot.go): walks the string
rejecting consecutive dots and a trailing dot; any rune that is neither a
dot nor a digit is skipped without updating `last`. -/
def numericTail (len : Nat) : Nat → Char → List Char → Bool
  | _, _, [] => true
  | i, last, c :: rest =>
    if c = '.' then
      if last = '.' then false
      else if i = len - 1 then false
      else numericTail len (i + 1) '.' rest
    else if isDigit c then numericTail len (i + 1) c rest
    else numericTail len (i + 1) last rest

/-- `isNumericOID` (dot.go). -/
def isNumericOID (s : List Char) : Bool :=
  if !isValidOIDStart s then false
  else numericTail s.length 0 (Char.ofNat 0) s

/-- The component loop of `newDotNotationStr`: each component goes
through `NewNumberForm` (string case), aborting at the first error. -/
def parseArcs : List (List Char) → Except String (List Int)
  | [] => .ok []
  | z :: zs =>
    match newStringNF z with
    | .error e => .error e
    | .ok nf =>
      match parseArcs zs with
      | .error e => .error e
      | .ok rest => .ok (nf :: rest)

/-- `newDotNotationStr` (dot.go). -/
def newDotNotationStr (s : List Char) : Except String (List Int) :=
  if !isNumericOID s then .error "Invalid OID cannot be processed"
  else parseArcs (splitDot s)

/-! ### Binary codec (dot.go) -/

/-- Go `big.Int.Bytes()`, written with a structural fuel argument (the
first `Nat`) so the kernel can evaluate it; `natBytes_eq` below proves
the loop recurrence: minimal big-endian bytes of the value, the empty
slice for zero. -/
def natBytesGo : Nat → Nat → List Nat
  | _, 0 => []
  | 0, _ + 1 => []
  | fuel + 1, n + 1 => natBytesGo fuel ((n + 1) / 256) ++ [(n + 1) % 256]

/-- Go `big.Int.Bytes()` of a natural number. -/
def natBytes (n : Nat) : List Nat := natBytesGo n n

/-- Go `big.NewInt(0).SetBytes(b)`: big-endian byte interpretation. -/
def bytesToNat (b : List Nat) : Nat :=
  b.foldl (fun a x => a * 256 + x) 0

/-- The loop of `encodeVLQ` (dot.go), with a structural fuel argument
(first `Nat`); `encodeVLQAux_eq` below proves the loop recurrence: peel
7-bit groups off `n`, prepending each to `oid`; every group except the
first one emitted (the least significant, which ends up last) gets `128`
added as the continuation marker.  A zero input emits nothing. -/
def encodeVLQGo : Nat → Nat → List Nat → List Nat
  | _, 0, oid => oid
  | 0, _ + 1, oid => oid
  | fuel + 1, n + 1, oid =>
    encodeVLQGo fuel ((n + 1) / 128)
      (((n + 1) % 128 + if oid.isEmpty then 0 else 128) :: oid)

/-- The VLQ loop of `encodeVLQ` (dot.go). -/
def encodeVLQAux (n : Nat) (oid : List Nat) : List Nat := encodeVLQGo n n oid

/-- `encodeVLQ` (dot.go). -/
def encodeVLQ (b : List Nat) : List Nat :=
  encodeVLQAux (bytesToNat b) []

/-- `DotNotation.Encode` (dot.go).  With at least two arcs: if the second
arc is at most 40 (`Cmp(forty) < 1`), the first content byte is
`arc0*40 + arc1` (an explicit zero byte when that value is 0) and the
remaining arcs are VLQ-encoded; otherwise the root's `Uint64()` must be
2 and every arc from the second onward is VLQ-encoded directly.  The
length byte is `byte(len(content))`, i.e. the content length mod 256. -/
def Encode (d : List Int) : Except String (List Nat) :=
  match d with
  | a0 :: a1 :: rest =>
    if a1 ≤ 40 then
      let first := a0 * 40 + a1
      let fb := natBytes first.natAbs
      let head := if fb.isEmpty then [0] else fb
      let content := head ++ rest.foldr (fun a acc => encodeVLQ (natBytes a.natAbs) ++ acc) []
      .ok (6 :: content.length % 256 :: content)
    else
      if uint64 a0 ≠ 2 then
        .error "Only joint-iso-itu-t(2) OIDs allow second-level arcs > 39"
      else
        let content := (a1 :: rest).foldr (fun a acc => encodeVLQ (natBytes a.natAbs) ++ acc) []
        .ok (6 :: content.length % 256 :: content)
  | _ => .error "Length below encoding minimum"

/-- Outcome of `DotNotation.Decode`: success, an error value, or a
runtime panic from an out-of-range slice access. -/
inductive DecodeOutcome where
  | ok (arcs : List Int)
  | fail (msg : String)
  | crash
deriving DecidableEq

/-- The inner loop of `Decode` (dot.go): accumulate 7-bit groups
(`subid = subid<<7 + b[i]&0x7F`) while the continuation bit `b[i]&0x80`
is set.  When the loop walks past the end of the slice (a final byte
with its continuation bit set) the Go code indexes out of range; that
is the `none` result. -/
def readVLQ (acc : Int) : List Nat → Option (Int × List Nat)
  | [] => none
  | byte :: rest =>
    let acc' := acc * 128 + (byte % 128 : Nat)
    if byte / 128 % 2 = 0 then some (acc', rest) else readVLQ acc' rest

/-- The outer loop of `Decode` (dot.go), with a structural fuel argument
(first `Nat`); `parseSubids_eq` below proves the loop recurrence:
repeatedly read one VLQ subidentifier while bytes remain. -/
def parseSubidsGo : Nat → List Nat → List Int → Option (List Int)
  | _, [], acc => some acc
  | 0, _ :: _, _ => none
  | fuel + 1, b :: rest, acc =>
    match readVLQ 0 (b :: rest) with
    | none => none
    | some vr => parseSubidsGo fuel vr.2 (acc ++ [vr.1])

/-- The subidentifier loop of `Decode` (dot.go). -/
def parseSubids (bs : List Nat) (acc : List Int) : Option (List Int) :=
  parseSubidsGo bs.length bs acc

/-- `decodeFirstArcs` (dot.go): split the first decoded subidentifier
back into the first two arcs.  `b0` is the first content byte. -/
def decodeFirstArcs (arcs : List Int) (b0 : Nat) : List Int :=
  match arcs with
  | [] => []
  | v :: rest =>
    if v < 80 then v / 40 :: v % 40 :: rest
    else if 128 ≤ b0 then 2 :: (v - 2 + 2) :: rest
    else 2 :: (v - 80) :: rest

/-- `DotNotation.Decode` (dot.go): at least 3 bytes, tag `0x06`, length
byte equal to the content length, then VLQ parsing and first-arc
splitting. -/
def Decode (b : List Nat) : DecodeOutcome :=
  match b with
  | t :: l :: c0 :: cr =>
    if t ≠ 6 then .fail "Invalid ASN.1 Tag; want: 0x06"
    else if l ≠ (c0 :: cr).length then
      .fail "Length of bytes does not match with the indicated length"
    else
      match parseSubids (c0 :: cr) [] with
      | none => .crash
      | some arcs =>
        if 0 < arcs.length then .ok (decodeFirstArcs arcs c0)
        else .ok arcs
  | _ => .fail "Truncated OID encoding"

/-- The all-marked VLQ byte string of `n`: every 7-bit group carries the
continuation bit.  This is the shape `encodeVLQAux` produces for all but
the last group. -/
def vlqMarked (n : Nat) : List Nat :=
  if n = 0 then [] else vlqMarked (n / 128) ++ [n % 128 + 128]
termination_by n
decreasing_by exact Nat.div_lt_self (Nat.pos_of_ne_zero (by assumption)) (by omega)

/-! ### Correctness lemmas for the VLQ codec -/

/-- The fuel argument is irrelevant as long as it dominates the value. -/
theorem natBytesGo_fuel (f1 : Nat) : ∀ f2 n, n ≤ f1 → n ≤ f2 →
    natBytesGo f1 n = natBytesGo f2 n := by
  induction f1 with
  | zero => intro f2 n h1 _; interval_cases n; cases f2 <;> rfl
  | succ a ih =>
    intro f2 n h1 h2
    match n, f2 with
    | 0, f2 => cases f2 <;> rfl
    | m + 1, b + 1 =>
      show natBytesGo a ((m + 1) / 256) ++ _ = natBytesGo b ((m + 1) / 256) ++ _
      rw [ih b ((m + 1) / 256) (by omega) (by omega)]

/-- `natBytes` satisfies the defining recurrence of `big.Int.Bytes`. -/
theorem natBytes_eq (n : Nat) :
    natBytes n = if n = 0 then [] else natBytes (n / 256) ++ [n % 256] := by
  match n with
  | 0 => rfl
  | m + 1 =>
    show natBytesGo m ((m + 1) / 256) ++ _ = _
    rw [if_neg (by omega)]
    unfold natBytes
    rw [natBytesGo_fuel m ((m + 1) / 256) ((m + 1) / 256) (by omega) le_rfl]

/-- The fuel argument is irrelevant as long as it dominates the value. -/
theorem encodeVLQGo_fuel (f1 : Nat) : ∀ f2 n oid, n ≤ f1 → n ≤ f2 →
    encodeVLQGo f1 n oid = encodeVLQGo f2 n oid := by
  induction f1 with
  | zero => intro f2 n oid h1 _; interval_cases n; cases f2 <;> rfl
  | succ a ih =>
    intro f2 n oid h1 h2
    match n, f2 with
    | 0, f2 => cases f2 <;> rfl
    | m + 1, b + 1 =>
      show encodeVLQGo a ((m + 1) / 128) _ = encodeVLQGo b ((m + 1) / 128) _
      rw [ih b ((m + 1) / 128) _ (by omega) (by omega)]

/-- `encodeVLQAux` satisfies the defining recurrence of the Go loop. -/
theorem encodeVLQAux_eq (n : Nat) (oid : List Nat) :
    encodeVLQAux n oid =
      if n = 0 then oid
      else encodeVLQAux (n / 128) ((n % 128 + if oid.isEmpty then 0 else 128) :: oid) := by
  match n with
  | 0 => rfl
  | m + 1 =>
    rw [if_neg (show ¬(m + 1 = 0) by omega)]
    show encodeVLQGo m ((m + 1) / 128)
        (((m + 1) % 128 + if oid.isEmpty then 0 else 128) :: oid) =
      encodeVLQGo ((m + 1) / 128) ((m + 1) / 128)
        (((m + 1) % 128 + if oid.isEmpty then 0 else 128) :: oid)
    exact encodeVLQGo_fuel m ((m + 1) / 128) ((m + 1) / 128) _ (by omega) le_rfl

theorem readVLQ_consumed {acc : Int} {l : List Nat} {vr : Int × List Nat}
    (h : readVLQ acc l = some vr) : vr.2.length < l.length := by
  induction l generalizing acc with
  | nil => simp [readVLQ] at h
  | cons b bs ih =>
    rw [readVLQ] at h
    by_cases hb : b / 128 % 2 = 0
    · simp only [if_pos hb, Option.some.injEq] at h
      subst h
      simp
    · simp only [if_neg hb] at h
      have := ih h
      simp only [List.length_cons]
      omega

/-- The fuel argument is irrelevant as long as it dominates the length. -/
theorem parseSubidsGo_fuel (f1 : Nat) : ∀ f2 bs acc, bs.length ≤ f1 →
    bs.length ≤ f2 → parseSubidsGo f1 bs acc = parseSubidsGo f2 bs acc := by
  induction f1 with
  | zero =>
    intro f2 bs acc h1 _
    match bs with
    | [] => cases f2 <;> rfl
    | _ :: _ => simp at h1
  | succ a ih =>
    intro f2 bs acc h1 h2
    match bs, f2 with
    | [], f2 => cases f2 <;> rfl
    | b :: rest, c + 1 =>
      simp only [List.length_cons] at h1 h2
      show (match readVLQ 0 (b :: rest) with
        | none => none
        | some vr => parseSubidsGo a vr.2 (acc ++ [vr.1])) =
        (match readVLQ 0 (b :: rest) with
        | none => none
        | some vr => parseSubidsGo c vr.2 (acc ++ [vr.1]))
      cases hr : readVLQ 0 (b :: rest) with
      | none => rfl
      | some vr =>
        have hc := readVLQ_consumed hr
        simp only [List.length_cons] at hc
        exact ih c vr.2 (acc ++ [vr.1]) (by omega) (by omega)

/-- `parseSubids` satisfies the defining recurrence of the Go loop. -/
theorem parseSubids_eq (bs : List Nat) (acc : List Int) :
    parseSubids bs acc =
      match bs with
      | [] => some acc
      | b :: rest =>
        match readVLQ 0 (b :: rest) with
        | none => none
        | some vr => parseSubids vr.2 (acc ++ [vr.1]) := by
  match bs with
  | [] => rfl
  | b :: rest =>
    show (match readVLQ 0 (b :: rest) with
      | none => none
      | some vr => parseSubidsGo rest.length vr.2 (acc ++ [vr.1])) =
      (match readVLQ 0 (b :: rest) with
      | none => none
      | some vr => parseSubids vr.2 (acc ++ [vr.1]))
    cases hr : readVLQ 0 (b :: rest) with
    | none => rfl
    | some vr =>
      have hc := readVLQ_consumed hr
      simp only [List.length_cons] at hc
      exact parseSubidsGo_fuel rest.length vr.2.length vr.2 (acc ++ [vr.1])
        (by omega) le_rfl

theorem bytesToNat_natBytes (n : Nat) : bytesToNat (natBytes n) = n := by
  induction n using Nat.strong_induction_on with
  | _ n ih =>
    rw [natBytes_eq]
    by_cases h : n = 0
    · simp [h, bytesToNat]
    · rw [if_neg h]
      have := ih (n / 256) (Nat.div_lt_self (Nat.pos_of_ne_zero h) (by omega))
      simp only [bytesToNat, List.foldl_append, List.foldl_cons, List.foldl_nil] at this ⊢
      rw [this]
      omega

theorem encodeVLQ_natBytes (m : Nat) : encodeVLQ (natBytes m) = encodeVLQAux m [] := by
  rw [encodeVLQ, bytesToNat_natBytes]

theorem natBytes_small {c : Nat} (h0 : c ≠ 0) (h : c < 256) : natBytes c = [c] := by
  rw [natBytes_eq, if_neg h0, natBytes_eq, if_pos (show c / 256 = 0 by omega),
    Nat.mod_eq_of_lt h]
  simp

/-- The packed first byte `Encode` emits for a one-byte value. -/
theorem encodeHead_small {c : Nat} (h : c < 256) :
    (if (natBytes c).isEmpty then [0] else natBytes c) = [c] := by
  by_cases h0 : c = 0
  · subst h0; rfl
  · rw [natBytes_small h0 h]
    simp

theorem vlqMarked_mem : ∀ n, ∀ x ∈ vlqMarked n, 128 ≤ x := by
  intro n
  induction n using Nat.strong_induction_on with
  | _ n ih =>
    intro x hx
    rw [vlqMarked] at hx
    by_cases h : n = 0
    · simp [h] at hx
    · rw [if_neg h] at hx
      rcases List.mem_append.mp hx with h1 | h2
      · exact ih (n / 128) (Nat.div_lt_self (Nat.pos_of_ne_zero h) (by omega)) x h1
      · simp at h2; omega

theorem vlqMarked_ne_nil {n : Nat} (h : 0 < n) : vlqMarked n ≠ [] := by
  rw [vlqMarked, if_neg (by omega)]
  simp

/-- With a nonempty accumulator, the VLQ loop emits all-marked groups. -/
theorem encodeVLQAux_marked : ∀ n oid, oid ≠ [] →
    encodeVLQAux n oid = vlqMarked n ++ oid := by
  intro n
  induction n using Nat.strong_induction_on with
  | _ n ih =>
    intro oid hoid
    rw [encodeVLQAux_eq, vlqMarked]
    by_cases h : n = 0
    · simp [h]
    · rw [if_neg h, if_neg h]
      rw [if_neg (by simpa [List.isEmpty_iff] using hoid)]
      rw [ih (n / 128) (Nat.div_lt_self (Nat.pos_of_ne_zero h) (by omega))
        ((n % 128 + 128) :: oid) (by simp)]
      simp

/-- The VLQ encoding of a positive value: marked high groups, then the
unmarked least-significant group. -/
theorem encodeVLQAux_nil {n : Nat} (h : 0 < n) :
    encodeVLQAux n [] = vlqMarked (n / 128) ++ [n % 128] := by
  rw [encodeVLQAux_eq, if_neg (by omega)]
  simp only [List.isEmpty_nil, if_pos rfl, Nat.add_zero]
  exact encodeVLQAux_marked (n / 128) [n % 128] (by simp)

theorem encodeVLQAux_nil_ne {n : Nat} (h : 0 < n) : encodeVLQAux n [] ≠ [] := by
  rw [encodeVLQAux_nil h]
  simp

/-- Reading one unmarked byte stops the inner loop. -/
theorem readVLQ_single {x : Nat} (h : x < 128) (acc : Int) (rest : List Nat) :
    readVLQ acc (x :: rest) = some (acc * 128 + (x : Int), rest) := by
  simp [readVLQ, Nat.div_eq_of_lt h, Nat.mod_eq_of_lt h]

/-- Reading past a run of marked bytes accumulates their groups. -/
theorem readVLQ_marked : ∀ n (acc : Int) (rest : List Nat),
    readVLQ acc (vlqMarked n ++ rest) =
      readVLQ (acc * 128 ^ (vlqMarked n).length + n) rest := by
  intro n
  induction n using Nat.strong_induction_on with
  | _ n ih =>
    intro acc rest
    rw [vlqMarked]
    by_cases h : n = 0
    · simp [h]
    · rw [if_neg h]
      have hm : n % 128 < 128 := Nat.mod_lt _ (by omega)
      rw [List.append_assoc,
        ih (n / 128) (Nat.div_lt_self (Nat.pos_of_ne_zero h) (by omega))]
      rw [List.singleton_append, readVLQ]
      rw [if_neg (by omega : ¬((n % 128 + 128) / 128 % 2 = 0))]
      have hb : (n % 128 + 128) % 128 = n % 128 := by omega
      rw [hb]
      have hlen : (vlqMarked (n / 128) ++ [n % 128 + 128]).length =
          (vlqMarked (n / 128)).length + 1 := by simp
      rw [hlen]
      congr 1
      have hn : (n : Int) = 128 * ((n / 128 : Nat) : Int) + ((n % 128 : Nat) : Int) := by
        omega
      rw [pow_succ, hn]
      ring

/-- Reading the VLQ encoding of a positive value recovers it. -/
theorem readVLQ_encodeVLQAux {n : Nat} (h : 0 < n) (rest : List Nat) :
    readVLQ 0 (encodeVLQAux n [] ++ rest) = some ((n : Int), rest) := by
  rw [encodeVLQAux_nil h, List.append_assoc, readVLQ_marked,
    List.singleton_append, readVLQ_single (Nat.mod_lt _ (by omega))]
  congr 2
  simp only [zero_mul, zero_add]
  omega

/-- One step of the outer `Decode` loop. -/
theorem parseSubids_step {b : Nat} {bs : List Nat} {vr : Int × List Nat}
    (h : readVLQ 0 (b :: bs) = some vr) (acc : List Int) :
    parseSubids (b :: bs) acc = parseSubids vr.2 (acc ++ [vr.1]) := by
  rw [parseSubids_eq]
  simp only [h]

/-- Parsing the concatenated VLQ encodings of positive arcs recovers the
arcs (this is exactly the byte string `Encode` builds for the arcs after
the packed first byte). -/
theorem parseSubids_encoded : ∀ (arcs : List Int), (∀ a ∈ arcs, 0 < a) →
    ∀ acc, parseSubids
      (arcs.foldr (fun a acc2 => encodeVLQ (natBytes a.natAbs) ++ acc2) []) acc =
      some (acc ++ arcs) := by
  intro arcs
  induction arcs with
  | nil =>
    intro _ acc
    show some acc = some (acc ++ [])
    simp
  | cons a rest ih =>
    intro hpos acc
    have ha : 0 < a := hpos a (by simp)
    have ha' : 0 < a.natAbs := by omega
    simp only [List.foldr_cons]
    rw [encodeVLQ_natBytes]
    have hcast : ((a.natAbs : Nat) : Int) = a := Int.natAbs_of_nonneg (le_of_lt ha)
    cases hbytes : encodeVLQAux a.natAbs [] with
    | nil => exact absurd hbytes (encodeVLQAux_nil_ne ha')
    | cons x xs =>
      have hread : readVLQ 0 (x :: (xs ++
          rest.foldr (fun a acc2 => encodeVLQ (natBytes a.natAbs) ++ acc2) [])) =
          some ((a.natAbs : Int),
            rest.foldr (fun a acc2 => encodeVLQ (natBytes a.natAbs) ++ acc2) []) := by
        rw [← List.cons_append, ← hbytes]
        exact readVLQ_encodeVLQAux ha' _
      rw [List.cons_append, parseSubids_step hread acc]
      rw [ih (fun a h => hpos a (by simp [h])) (acc ++ [(a.natAbs : Int)])]
      rw [hcast]
      simp

/-! ### Round-trip infrastructure -/

/-- Decoding a framed content whose subidentifiers parse. -/
theorem decode_frame {content : List Nat} {arcs : List Int} {c0 : Nat} {cr : List Nat}
    (hnn : content = c0 :: cr)
    (harcs : parseSubids content [] = some arcs)
    (hL : content.length ≤ 255)
    (h0 : 0 < arcs.length) :
    Decode (6 :: content.length % 256 :: content) = .ok (decodeFirstArcs arcs c0) := by
  subst hnn
  show Decode (6 :: (c0 :: cr).length % 256 :: c0 :: cr) = _
  simp only [Decode]
  rw [if_neg (by simp)]
  rw [Nat.mod_eq_of_lt (by omega : (c0 :: cr).length < 256)]
  rw [if_neg (by simp)]
  rw [harcs]
  show (if 0 < arcs.length then DecodeOutcome.ok (decodeFirstArcs arcs c0)
    else DecodeOutcome.ok arcs) = DecodeOutcome.ok (decodeFirstArcs arcs c0)
  rw [if_pos h0]

/-- `Encode` on the combined-first-byte path (second arc at most 40,
packed value below 256). -/
theorem encode_ok_combined {a0 a1 : Int} (rest : List Int) (hA : a1 ≤ 40)
    (h0 : 0 ≤ a0 * 40 + a1) (hlt : a0 * 40 + a1 < 256) :
    Encode (a0 :: a1 :: rest) = .ok
      (6 :: ((a0 * 40 + a1).natAbs ::
        rest.foldr (fun a acc2 => encodeVLQ (natBytes a.natAbs) ++ acc2) []).length % 256 ::
        ((a0 * 40 + a1).natAbs ::
        rest.foldr (fun a acc2 => encodeVLQ (natBytes a.natAbs) ++ acc2) [])) := by
  simp only [Encode]
  rw [if_pos hA, encodeHead_small (show (a0 * 40 + a1).natAbs < 256 by omega)]
  rw [List.singleton_append]

/-- `Encode` on the skip-combine path (second arc above 40, root whose
`Uint64()` is 2). -/
theorem encode_ok_skip {a0 a1 : Int} (rest : List Int) (hA : ¬(a1 ≤ 40))
    (hu : uint64 a0 = 2) :
    Encode (a0 :: a1 :: rest) = .ok
      (6 :: ((a1 :: rest).foldr
          (fun a acc2 => encodeVLQ (natBytes a.natAbs) ++ acc2) []).length % 256 ::
        (a1 :: rest).foldr (fun a acc2 => encodeVLQ (natBytes a.natAbs) ++ acc2) []) := by
  simp only [Encode]
  rw [if_neg hA, if_neg (by simp [hu])]

/-! ### Claim theorems -/

/-- Claim C1, amended.  Amended round-trip: for a `DotNotation`
`a0.a1.rest` whose root is 0, 1 or 2, whose second-level arc is in the
root's permitted range — at most 39 under roots 0 and 1; under root 2 at
most 40 or at least 128 — whose arcs beyond the second are all strictly
positive, and whose encoding fits the one-byte length field, decoding the
bytes produced by `Encode` yields the original value.  (The original
claim admitted root-2 second arcs in 41..127 and zero arcs after the
second position, both of which break the round trip — see
`roundtrip_counterexample`.) -/
theorem decode_encode_roundtrip (a0 a1 : Int) (rest : List Int) (b : List Nat)
    (h00 : 0 ≤ a0) (h02 : a0 ≤ 2) (h10 : 0 ≤ a1)
    (h39 : a0 < 2 → a1 ≤ 39)
    (h128 : a0 = 2 → a1 ≤ 40 ∨ 128 ≤ a1)
    (hrest : ∀ a ∈ rest, 0 < a)
    (henc : Encode (a0 :: a1 :: rest) = .ok b)
    (hlen : b.length ≤ 257) :
    Decode b = .ok (a0 :: a1 :: rest) := by
  by_cases hA : a1 ≤ 40
  · -- combined first byte
    have hcI0 : 0 ≤ a0 * 40 + a1 := by omega
    have hcIlt : a0 * 40 + a1 < 128 := by omega
    rw [encode_ok_combined rest hA hcI0 (by omega)] at henc
    injection henc with hb
    subst hb
    have hread : readVLQ 0 ((a0 * 40 + a1).natAbs ::
        rest.foldr (fun a acc2 => encodeVLQ (natBytes a.natAbs) ++ acc2) []) =
        some ((0 : Int) * 128 + ((a0 * 40 + a1).natAbs : Int),
          rest.foldr (fun a acc2 => encodeVLQ (natBytes a.natAbs) ++ acc2) []) :=
      readVLQ_single (by omega) 0 _
    have harcs : parseSubids ((a0 * 40 + a1).natAbs ::
        rest.foldr (fun a acc2 => encodeVLQ (natBytes a.natAbs) ++ acc2) []) [] =
        some (((a0 * 40 + a1).natAbs : Int) :: rest) := by
      rw [parseSubids_step hread]
      rw [parseSubids_encoded rest hrest]
      simp
    have hL : ((a0 * 40 + a1).natAbs ::
        rest.foldr (fun a acc2 => encodeVLQ (natBytes a.natAbs) ++ acc2) []).length ≤ 255 := by
      simp only [List.length_cons] at hlen ⊢
      omega
    rw [decode_frame rfl harcs hL (by simp)]
    by_cases h2 : a0 = 2
    · -- root 2, second arc at most 40: first subidentifier is 80 + a1
      rw [decodeFirstArcs, if_neg (by omega), if_neg (by omega)]
      simp only [DecodeOutcome.ok.injEq, List.cons.injEq]
      exact ⟨by omega, by omega, trivial⟩
    · -- root 0 or 1: first subidentifier is below 80
      have h39' : a1 ≤ 39 := h39 (by omega)
      rw [decodeFirstArcs, if_pos (by omega)]
      simp only [DecodeOutcome.ok.injEq, List.cons.injEq]
      exact ⟨by omega, by omega, trivial⟩
  · -- skip-combine path: a0 = 2 and a1 ≥ 128
    have h2 : a0 = 2 := by
      rcases lt_or_eq_of_le h02 with h | h
      · exact absurd (h39 h) (by omega)
      · exact h
    have ha1 : 128 ≤ a1 := (h128 h2).resolve_left hA
    have hu : uint64 a0 = 2 := by rw [h2]; rfl
    rw [encode_ok_skip rest hA hu] at henc
    injection henc with hb
    subst hb
    have ha1' : 128 ≤ a1.natAbs := by omega
    have hcontent : (a1 :: rest).foldr (fun a acc2 => encodeVLQ (natBytes a.natAbs) ++ acc2) [] =
        encodeVLQAux a1.natAbs [] ++
          rest.foldr (fun a acc2 => encodeVLQ (natBytes a.natAbs) ++ acc2) [] := by
      simp only [List.foldr_cons, encodeVLQ_natBytes]
    have hdiv : 0 < a1.natAbs / 128 := by omega
    obtain ⟨y, ys, hy⟩ : ∃ y ys, vlqMarked (a1.natAbs / 128) = y :: ys := by
      cases hvm : vlqMarked (a1.natAbs / 128) with
      | nil => exact absurd hvm (vlqMarked_ne_nil hdiv)
      | cons y ys => exact ⟨y, ys, rfl⟩
    have hymem : 128 ≤ y := vlqMarked_mem _ y (by rw [hy]; simp)
    have hshape : encodeVLQAux a1.natAbs [] ++
        rest.foldr (fun a acc2 => encodeVLQ (natBytes a.natAbs) ++ acc2) [] =
        y :: (ys ++ [a1.natAbs % 128] ++
          rest.foldr (fun a acc2 => encodeVLQ (natBytes a.natAbs) ++ acc2) []) := by
      rw [encodeVLQAux_nil (by omega), hy]
      simp
    have harcs : parseSubids ((a1 :: rest).foldr
        (fun a acc2 => encodeVLQ (natBytes a.natAbs) ++ acc2) []) [] = some (a1 :: rest) := by
      have := parseSubids_encoded (a1 :: rest) (by
        intro a haMem
        rcases List.mem_cons.mp haMem with h | h
        · omega
        · exact hrest a h) []
      simpa using this
    have hL : ((a1 :: rest).foldr
        (fun a acc2 => encodeVLQ (natBytes a.natAbs) ++ acc2) []).length ≤ 255 := by
      simp only [List.length_cons] at hlen
      omega
    rw [decode_frame (hcontent.trans hshape) harcs hL (by simp)]
    rw [decodeFirstArcs, if_neg (by omega), if_pos (by omega)]
    simp only [DecodeOutcome.ok.injEq, List.cons.injEq]
    exact ⟨by omega, by omega, trivial⟩

/-- Witness for claim C1's amended theorem at the concrete value 1.3.6:
its encoding [6, 2, 43, 6] decodes back to 1.3.6. -/
theorem decode_encode_roundtrip_witness :
    Decode [6, 2, 43, 6] = .ok [1, 3, 6] :=
  decode_encode_roundtrip 1 3 [6] [6, 2, 43, 6] (by decide) (by decide) (by decide)
    (fun _ => by decide) (fun h => by omega) (by decide) rfl (by decide)

/-- Counterexample to claim C1 as stated: 2.50 has a legally encodable
structure (root 2 places no bound on the second-level arc, the content is
one byte), yet its encoding decodes to 1.10; and 1.3.0 (second arc within
range, content one byte) encodes with the zero arc contributing no bytes,
so its encoding decodes to 1.3. -/
theorem roundtrip_counterexample :
    Encode [2, 50] = .ok [6, 1, 50] ∧ Decode [6, 1, 50] = .ok [1, 10] ∧
    Encode [1, 3, 0] = .ok [6, 1, 43] ∧ Decode [6, 1, 43] = .ok [1, 3] :=
  ⟨rfl, rfl, rfl, rfl⟩

/-- Claim C2: the dot notation string 1.3.6.1.4.1.56521.999.5 parses and
encodes to the bytes [6 11 43 6 1 4 1 131 185 73 135 103 5]; the string
2.999 parses and encodes to {0x06, 0x02, 0x87, 0x67}, and those bytes
decode back to 2.999. -/
theorem encode_decode_literals :
    newDotNotationStr "1.3.6.1.4.1.56521.999.5".data =
        .ok [1, 3, 6, 1, 4, 1, 56521, 999, 5] ∧
    Encode [1, 3, 6, 1, 4, 1, 56521, 999, 5] =
        .ok [6, 11, 43, 6, 1, 4, 1, 131, 185, 73, 135, 103, 5] ∧
    newDotNotationStr "2.999".data = .ok [2, 999] ∧
    Encode [2, 999] = .ok [6, 2, 135, 103] ∧
    Decode [6, 2, 135, 103] = .ok [2, 999] :=
  ⟨rfl, rfl, rfl, rfl, rfl⟩

/-- Claim C3 (code bug): the receiver 1.40 has a second-level arc greater
than 39 under a root other than 2, so by the claim (and the code's own
comment, which says the combined path is meant for second-level arcs at
most 39) `Encode` should fail; instead the comparison `Cmp(forty) < 1`
admits 40, and 1.40 encodes without error to the byte 80 — which then
decodes as 2.0. -/
theorem encode_second_arc_forty_no_error :
    Encode [1, 40] = .ok [6, 1, 80] ∧ Decode [6, 1, 80] = .ok [2, 0] :=
  ⟨rfl, rfl⟩

/-- Claim C4 (code bug): the VLQ encoder emits the empty byte string for
an arc value of exactly 0 (the explicit zero byte special case exists
only for the packed first byte), so encoding 1.3.0 produces no trailing
0x00 content byte: the result is [6, 1, 43], identical to the encoding
of 1.3. -/
theorem encode_zero_arc_empty_vlq :
    encodeVLQ (natBytes (0 : Int).natAbs) = [] ∧
    Encode [1, 3, 0] = .ok [6, 1, 43] :=
  ⟨rfl, rfl⟩

/-- Claim C5 (code bug): a wrong tag byte, a mismatched length byte and
fewer than 3 total bytes each yield an error as claimed, but a truncated
VLQ sequence (final content byte with its continuation bit set, here
[0x06, 0x01, 0x87]) drives the inner loop past the end of the content
slice: the Go code panics with an index-out-of-range instead of
returning an error. -/
theorem decode_truncated_vlq_crash :
    Decode [6, 1, 135] = .crash ∧
    Decode [5, 1, 0] = .fail "Invalid ASN.1 Tag; want: 0x06" ∧
    Decode [6, 5, 0] = .fail "Length of bytes does not match with the indicated length" ∧
    Decode [6, 0] = .fail "Truncated OID encoding" :=
  ⟨rfl, rfl, rfl, rfl⟩

/-- Claim C6 (code bug): `Index` clamps out-of-range indices as claimed
(for a length-9 value, `Index 100` and `Index (-1)` agree), but the guard
`idx > L` is strict, so at exactly `idx = len(d)` the final branch
evaluates `d[len(d)]` and the Go code panics instead of clamping. -/
theorem index_at_length_crash :
    Index [1, 2] 2 = .crash ∧
    Index [1, 2, 3, 4, 5, 6, 7, 8, 9] 100 = .res 9 true ∧
    Index [1, 2, 3, 4, 5, 6, 7, 8, 9] (-1) = .res 9 true :=
  ⟨rfl, rfl, rfl⟩

/-- Claim C7 (code bug): negative strings and negative machine integers
are rejected as claimed, but the `*big.Int` case of `NewNumberForm`
stores the value with no sign check, so a negative big integer yields a
`NumberForm` carrying the negative value and a nil error — contradicting
the function's own documentation. -/
theorem newNumberForm_negative_big_ok :
    NewNumberForm (.big (-1)) = .ok (-1) ∧
    NewNumberForm (.str "-1".data) = .error "A NumberForm cannot be negative" ∧
    NewNumberForm (.int (-5)) = .error "A NumberForm cannot be negative" :=
  ⟨rfl, rfl, rfl⟩

/-- Claim C8, amended.  For every `NumberForm` carrying a nonnegative
value and every right-hand side: an unparseable string makes all five
predicates return false, and a negative machine-integer right-hand side
makes all five return false, as claimed; but a negative string or big-int
right-hand side — which the comparators parse with `SetString`, not with
the sign-rejecting constructor — makes `Gt` and `Ge` return true (the
receiver really is greater), with only `Equal`, `Lt` and `Le` returning
false.  No predicate panics: all are total. -/
theorem cmp_negative_rhs (r : Int) (hr : 0 ≤ r) :
    (∀ s, setString10 s = none →
      Equal r (.str s) = false ∧ Gt r (.str s) = false ∧ Ge r (.str s) = false ∧
      Lt r (.str s) = false ∧ Le r (.str s) = false) ∧
    (∀ z : Int, z < 0 →
      Equal r (.big z) = false ∧ Lt r (.big z) = false ∧ Le r (.big z) = false ∧
      Gt r (.big z) = true ∧ Ge r (.big z) = true) ∧
    (∀ s z, setString10 s = some z → z < 0 →
      Equal r (.str s) = false ∧ Lt r (.str s) = false ∧ Le r (.str s) = false ∧
      Gt r (.str s) = true ∧ Ge r (.str s) = true) ∧
    (∀ n : Int, n < 0 →
      Equal r (.int n) = false ∧ Gt r (.int n) = false ∧ Ge r (.int n) = false ∧
      Lt r (.int n) = false ∧ Le r (.int n) = false) := by
  refine ⟨?_, ?_, ?_, ?_⟩
  · intro s hs
    refine ⟨?_, ?_, ?_, ?_, ?_⟩ <;> simp [Equal, Gt, Ge, Lt, Le, hs]
  · intro z hz
    refine ⟨?_, ?_, ?_, ?_, ?_⟩ <;> simp [Equal, Gt, Ge, Lt, Le] <;> omega
  · intro s z hs hz
    refine ⟨?_, ?_, ?_, ?_, ?_⟩ <;> simp [Equal, Gt, Ge, Lt, Le, hs] <;> omega
  · intro n hn
    refine ⟨?_, ?_, ?_, ?_, ?_⟩ <;> simp [Equal, Gt, Ge, Lt, Le] <;> omega

/-- Witness for claim C8's amended theorem at receiver 0 with the
right-hand sides "x" (unparseable), the big integer -5, the string "-5"
and the machine integer -5. -/
theorem cmp_negative_rhs_witness :
    (Equal 0 (.str "x".data) = false ∧ Gt 0 (.str "x".data) = false ∧
      Ge 0 (.str "x".data) = false ∧ Lt 0 (.str "x".data) = false ∧
      Le 0 (.str "x".data) = false) ∧
    (Equal 0 (.big (-5)) = false ∧ Lt 0 (.big (-5)) = false ∧
      Le 0 (.big (-5)) = false ∧ Gt 0 (.big (-5)) = true ∧
      Ge 0 (.big (-5)) = true) ∧
    (Equal 0 (.str "-5".data) = false ∧ Lt 0 (.str "-5".data) = false ∧
      Le 0 (.str "-5".data) = false ∧ Gt 0 (.str "-5".data) = true ∧
      Ge 0 (.str "-5".data) = true) ∧
    (Equal 0 (.int (-5)) = false ∧ Gt 0 (.int (-5)) = false ∧
      Ge 0 (.int (-5)) = false ∧ Lt 0 (.int (-5)) = false ∧
      Le 0 (.int (-5)) = false) :=
  ⟨(cmp_negative_rhs 0 (by decide)).1 "x".data (by decide),
    (cmp_negative_rhs 0 (by decide)).2.1 (-5) (by decide),
    (cmp_negative_rhs 0 (by decide)).2.2.1 "-5".data (-5) (by decide) (by decide),
    (cmp_negative_rhs 0 (by decide)).2.2.2 (-5) (by decide)⟩

/-- Counterexample to claim C8 as stated: the right-hand side "-5"
represents a negative number, yet `Gt` on receiver 0 returns true, not
false (and so does `Ge`). -/
theorem gt_negative_string_counterexample :
    Gt 0 (.str "-5".data) = true ∧ Ge 0 (.str "-5".data) = true := by
  constructor <;> decide

/-- Claim C9 (code bug): a length-1 sequence is indeed never valid and
ordinary values behave as claimed, but `Valid` tests the root through
`NumberForm.Lt 3`, which compares `Uint64()` values — the low 64 bits of
the root — so the root 2^64 (whose low 64 bits are 0) makes a length-2
value valid even though its root arc is not less than 3. -/
theorem valid_uint64_truncation :
    Valid [(2 : Int) ^ 64, 1] = true ∧ ¬((2 : Int) ^ 64 < 3) ∧
    Valid [1] = false ∧ Valid [0, 39] = true := by
  refine ⟨by decide, by norm_num, rfl, rfl⟩

/-- Claim C10: whenever `Encode` succeeds, the emitted length byte is the
content length reduced modulo 256 (Go's `byte(len(b))`), and there is no
length guard: any receiver of length at least 2 that passes the
second-arc check succeeds, so once the content exceeds 255 bytes the
declared length no longer matches the number of content bytes. -/
theorem encode_length_byte_mod256 (a0 a1 : Int) (rest : List Int)
    (h : a1 ≤ 40 ∨ uint64 a0 = 2) :
    ∃ content : List Nat,
      Encode (a0 :: a1 :: rest) = .ok (6 :: content.length % 256 :: content) ∧
      (255 < content.length → content.length % 256 ≠ content.length) := by
  by_cases hA : a1 ≤ 40
  · have he : Encode (a0 :: a1 :: rest) = .ok
        (6 :: ((if (natBytes (a0 * 40 + a1).natAbs).isEmpty then [0]
            else natBytes (a0 * 40 + a1).natAbs) ++
            rest.foldr (fun a acc2 => encodeVLQ (natBytes a.natAbs) ++ acc2) []).length % 256 ::
          ((if (natBytes (a0 * 40 + a1).natAbs).isEmpty then [0]
            else natBytes (a0 * 40 + a1).natAbs) ++
            rest.foldr (fun a acc2 => encodeVLQ (natBytes a.natAbs) ++ acc2) [])) := by
      simp only [Encode]
      rw [if_pos hA]
    refine ⟨_, he, ?_⟩
    intro h255
    omega
  · have hu : uint64 a0 = 2 := h.resolve_left hA
    have he : Encode (a0 :: a1 :: rest) = .ok
        (6 :: ((a1 :: rest).foldr
            (fun a acc2 => encodeVLQ (natBytes a.natAbs) ++ acc2) []).length % 256 ::
          (a1 :: rest).foldr (fun a acc2 => encodeVLQ (natBytes a.natAbs) ++ acc2) []) := by
      simp only [Encode]
      rw [if_neg hA, if_neg (by simp [hu])]
    refine ⟨_, he, ?_⟩
    intro h255
    omega

/-- Witness for claim C10 at 1.3 followed by three hundred arcs of value
1: the 301-byte content overflows the length byte, which carries
301 mod 256 = 45. -/
theorem encode_length_byte_mod256_witness :
    ∃ content : List Nat,
      Encode (1 :: 3 :: List.replicate 300 1) = .ok (6 :: content.length % 256 :: content) ∧
      (255 < content.length → content.length % 256 ≠ content.length) :=
  encode_length_byte_mod256 1 3 (List.replicate 300 1) (by norm_num)

end objectid
